import Mathlib

/-!
Verification of the pawn-board engine (`src/index.js`).

The JavaScript source is shallowly embedded: JS numbers that index the board
are `Int` (positions may go negative, e.g. the forward row of a black pawn on
row 0); the pawn registry (a JS object keyed by pawn id) is an association
list with object-style lookup/update/delete; the grid is a list of rows, each
a list of cells holding `Option String` (`null` ↦ `none`, a pawn id ↦
`some id`).  Functions that `throw` in JS return `Except ChessError`.
In-place mutators (`placePawn`, `addPawn`, `removePawn`) return the updated
board value; `movePawn`, which clones the board, returns the clone, and the
input board value is untouched by construction.
-/

/-- A (row, col) position, 0-indexed, as in the JS objects `{row, col}`. -/
structure Pos where
  row : Int
  col : Int
deriving DecidableEq

/-- Pawn colors: the JS strings "white" / "black". -/
inductive Color where
  | white
  | black
deriving DecidableEq

/-- A pawn record `{id, color, position, hasMoved}`. -/
structure Pawn where
  id : String
  color : Color
  position : Pos
  hasMoved : Bool
deriving DecidableEq

/-- The pawn registry: the JS object mapping pawn id to pawn record. -/
abbrev Reg := List (String × Pawn)

/-- The grid: `grid[row][col]` is a pawn id or `null`. -/
abbrev Grid := List (List (Option String))

/-- The board object `{width, height, pawns, grid}`. -/
structure Board where
  width : Nat
  height : Nat
  pawns : Reg
  grid : Grid
deriving DecidableEq

/-- The four error kinds of the spec (§7); in JS each is a thrown `Error`. -/
inductive ChessError where
  | outOfBounds
  | occupiedSquare
  | pawnNotFound
  | illegalMove
deriving DecidableEq

/-! ### Registry primitives (JS object semantics on an association list) -/

/-- Registry lookup, `board.pawns[k]` (`undefined` ↦ `none`). -/
def regFind (r : Reg) (k : String) : Option Pawn :=
  (r.find? (fun e => e.1 == k)).map (fun e => e.2)

/-- Registry deletion, `delete board.pawns[k]`. -/
def regDel (r : Reg) (k : String) : Reg :=
  r.filter (fun e => !(e.1 == k))

/-- Registry update, `board.pawns[k] = v` (key overwritten if present). -/
def regSet (r : Reg) (k : String) (v : Pawn) : Reg :=
  (k, v) :: regDel r k

theorem regFind_cons (e : String × Pawn) (r : Reg) (k : String) :
    regFind (e :: r) k = if e.1 = k then some e.2 else regFind r k := by
  by_cases h : e.1 = k
  · rw [if_pos h]
    unfold regFind
    rw [List.find?_cons_of_pos _ (by simpa using h)]
    rfl
  · rw [if_neg h]
    unfold regFind
    rw [List.find?_cons_of_neg _ (by simpa using h)]

theorem regDel_cons (e : String × Pawn) (r : Reg) (k : String) :
    regDel (e :: r) k = if e.1 = k then regDel r k else e :: regDel r k := by
  by_cases h : e.1 = k
  · rw [if_pos h]
    unfold regDel
    rw [List.filter_cons_of_neg (by simpa using h)]
  · rw [if_neg h]
    unfold regDel
    rw [List.filter_cons_of_pos (by simpa using h)]

theorem regFind_regDel_self (r : Reg) (k : String) : regFind (regDel r k) k = none := by
  induction r with
  | nil => rfl
  | cons e r ih =>
    rw [regDel_cons]
    by_cases h : e.1 = k
    · rw [if_pos h]
      exact ih
    · rw [if_neg h, regFind_cons, if_neg h]
      exact ih

theorem regFind_regDel_ne (r : Reg) (k k' : String) (h : k' ≠ k) :
    regFind (regDel r k) k' = regFind r k' := by
  induction r with
  | nil => rfl
  | cons e r ih =>
    rw [regDel_cons, regFind_cons]
    by_cases h1 : e.1 = k
    · have h2 : ¬ (e.1 = k') := by
        intro hc
        apply h
        rw [← hc, h1]
      rw [if_pos h1, if_neg h2]
      exact ih
    · rw [if_neg h1, regFind_cons]
      by_cases h2 : e.1 = k'
      · rw [if_pos h2, if_pos h2]
      · rw [if_neg h2, if_neg h2]
        exact ih

theorem regFind_regSet_self (r : Reg) (k : String) (v : Pawn) :
    regFind (regSet r k v) k = some v := by
  unfold regSet
  rw [regFind_cons, if_pos rfl]

theorem regFind_regSet_ne (r : Reg) (k k' : String) (v : Pawn) (h : k' ≠ k) :
    regFind (regSet r k v) k' = regFind r k' := by
  unfold regSet
  rw [regFind_cons, if_neg (fun hc => h hc.symm)]
  exact regFind_regDel_ne r k k' h

/-- A found entry really is an element of the registry with matching key. -/
theorem regFind_some_mem (r : Reg) (k : String) (p : Pawn)
    (h : regFind r k = some p) : (k, p) ∈ r := by
  induction r with
  | nil => exact Option.noConfusion h
  | cons e r ih =>
    rw [regFind_cons] at h
    by_cases h1 : e.1 = k
    · rw [if_pos h1] at h
      obtain ⟨e1, e2⟩ := e
      cases h1
      cases Option.some.inj h
      exact List.mem_cons_self _ _
    · rw [if_neg h1] at h
      exact List.mem_cons_of_mem _ (ih h)

/-- A fresh key: deletion is the identity. -/
theorem regDel_eq_self_of_fresh (r : Reg) (k : String) (h : regFind r k = none) :
    regDel r k = r := by
  induction r with
  | nil => rfl
  | cons e r ih =>
    rw [regFind_cons] at h
    by_cases h1 : e.1 = k
    · rw [if_pos h1] at h
      exact Option.noConfusion h
    · rw [if_neg h1] at h
      rw [regDel_cons, if_neg h1, ih h]

/-! ### Grid primitives -/

/-- `List.getD` at an in-range index is the stored element. -/
theorem getD_set_self {α : Type} (l : List α) (i : Nat) (v d : α) (h : i < l.length) :
    (l.set i v).getD i d = v := by
  induction l generalizing i with
  | nil => simp at h
  | cons a l ih =>
    cases i with
    | zero => rfl
    | succ i => exact ih i (by simpa using h)

theorem getD_set_ne {α : Type} (l : List α) (i j : Nat) (v d : α) (h : i ≠ j) :
    (l.set i v).getD j d = l.getD j d := by
  induction l generalizing i j with
  | nil => rfl
  | cons a l ih =>
    cases i with
    | zero =>
      cases j with
      | zero => exact absurd rfl h
      | succ j => rfl
    | succ i =>
      cases j with
      | zero => rfl
      | succ j => exact ih i j (by omega)

theorem getD_oob {α : Type} (l : List α) (i : Nat) (d : α) (h : l.length ≤ i) :
    l.getD i d = d := by
  induction l generalizing i with
  | nil => rfl
  | cons a l ih =>
    cases i with
    | zero => simp at h
    | succ i => exact ih i (by simpa using h)

theorem getD_mem {α : Type} (l : List α) (i : Nat) (d : α) (h : i < l.length) :
    l.getD i d ∈ l := by
  induction l generalizing i with
  | nil => simp at h
  | cons a l ih =>
    cases i with
    | zero => exact List.mem_cons_self _ _
    | succ i => exact List.mem_cons_of_mem _ (ih i (by simpa using h))

/-- Read a grid cell; any out-of-range read yields `none` (all reads in the
source are guarded by a bounds check, so only in-range reads matter). -/
def gridGet (g : Grid) (r c : Int) : Option String :=
  if 0 ≤ r ∧ 0 ≤ c then (g.getD r.toNat []).getD c.toNat none else none

/-- Write a grid cell (`board.grid[r][c] = v`); out-of-range writes are
dropped (in the source every write is within bounds). -/
def gridSet (g : Grid) (r c : Int) (v : Option String) : Grid :=
  if 0 ≤ r ∧ 0 ≤ c then g.set r.toNat ((g.getD r.toNat []).set c.toNat v) else g

theorem length_gridSet (g : Grid) (r c : Int) (v : Option String) :
    (gridSet g r c v).length = g.length := by
  unfold gridSet
  split <;> simp

theorem row_length_gridSet (g : Grid) (r c : Int) (v : Option String) (w : Nat)
    (hw : ∀ row ∈ g, row.length = w) :
    ∀ row ∈ gridSet g r c v, row.length = w := by
  intro row hrow
  unfold gridSet at hrow
  split at hrow
  · by_cases hb : r.toNat < g.length
    · rcases List.mem_or_eq_of_mem_set hrow with h | h
      · exact hw row h
      · subst h
        rw [List.length_set]
        exact hw _ (getD_mem g r.toNat [] hb)
    · rw [List.set_eq_of_length_le (Nat.le_of_not_lt hb)] at hrow
      exact hw row hrow
  · exact hw row hrow

/-- Clearing a cell always leaves that cell empty, whether or not the write
was in range (out of range, the read is `none` too). -/
theorem gridGet_gridSet_self_none (g : Grid) (r c : Int) :
    gridGet (gridSet g r c none) r c = none := by
  unfold gridGet gridSet
  split
  · by_cases hb : r.toNat < g.length
    · rw [getD_set_self _ _ _ _ (by simpa using hb)]
      by_cases hc : c.toNat < (g.getD r.toNat []).length
      · rw [getD_set_self _ _ _ _ hc]
      · rw [getD_oob _ _ _ (by rw [List.length_set]; omega)]
    · rw [List.set_eq_of_length_le (Nat.le_of_not_lt hb)]
      rw [getD_oob g r.toNat [] (Nat.le_of_not_lt hb)]
      rfl
  · rfl

theorem gridGet_gridSet_self (g : Grid) (r c : Int) (v : Option String)
    (h0r : 0 ≤ r) (h0c : 0 ≤ c) (hr : r.toNat < g.length)
    (hc : c.toNat < (g.getD r.toNat []).length) :
    gridGet (gridSet g r c v) r c = v := by
  unfold gridGet gridSet
  rw [if_pos ⟨h0r, h0c⟩, if_pos ⟨h0r, h0c⟩]
  rw [getD_set_self _ _ _ _ (by simpa using hr)]
  rw [getD_set_self _ _ _ _ hc]

theorem gridGet_gridSet_ne (g : Grid) (r c r' c' : Int) (v : Option String)
    (h : ¬ (r = r' ∧ c = c')) :
    gridGet (gridSet g r c v) r' c' = gridGet g r' c' := by
  unfold gridGet gridSet
  by_cases h1 : 0 ≤ r ∧ 0 ≤ c
  · rw [if_pos h1]
    by_cases h2 : 0 ≤ r' ∧ 0 ≤ c'
    · rw [if_pos h2, if_pos h2]
      by_cases hrr : r = r'
      · have hcc : c ≠ c' := fun hc => h ⟨hrr, hc⟩
        subst hrr
        by_cases hb : r.toNat < g.length
        · rw [getD_set_self _ _ _ _ (by simpa using hb)]
          rw [getD_set_ne _ _ _ _ _ (by omega)]
        · rw [List.set_eq_of_length_le (by simpa using Nat.le_of_not_lt hb)]
      · rw [getD_set_ne _ _ _ _ _ (by omega)]
    · rw [if_neg h2, if_neg h2]
  · rw [if_neg h1]

/-- An occupied cell is genuinely in range. -/
theorem gridGet_some_bounds (g : Grid) (r c : Int) (k : String)
    (h : gridGet g r c = some k) :
    0 ≤ r ∧ 0 ≤ c ∧ r.toNat < g.length ∧ c.toNat < (g.getD r.toNat []).length := by
  unfold gridGet at h
  split at h
  · rename_i hs
    refine ⟨hs.1, hs.2, ?_, ?_⟩
    · by_contra hb
      rw [getD_oob g r.toNat [] (by omega)] at h
      simp at h
    · by_contra hb
      rw [getD_oob _ c.toNat none (by omega)] at h
      exact Option.noConfusion h
  · exact Option.noConfusion h

/-- An occupied cell's content appears in some row of the grid. -/
theorem gridGet_some_mem (g : Grid) (r c : Int) (k : String)
    (h : gridGet g r c = some k) :
    ∃ row ∈ g, (some k) ∈ row := by
  obtain ⟨h0r, h0c, hr, hc⟩ := gridGet_some_bounds g r c k h
  unfold gridGet at h
  rw [if_pos ⟨h0r, h0c⟩] at h
  refine ⟨g.getD r.toNat [], getD_mem g r.toNat [] hr, ?_⟩
  rw [← h]
  exact getD_mem _ c.toNat none hc

/-! ### Source embeddings (`src/index.js`) -/

/-- `createEmptyGrid(width, height)`: `height` rows of `width` nulls. -/
def createEmptyGrid (width height : Nat) : Grid :=
  List.replicate height (List.replicate width none)

/-- `createEmptyBoard(width, height)`. -/
def createEmptyBoard (width height : Nat) : Board :=
  { width := width, height := height, pawns := [], grid := createEmptyGrid width height }

/-- `isValidPosition(board, row, col)`. -/
def isValidPosition (board : Board) (row col : Int) : Bool :=
  decide (0 ≤ row) && decide (row < (board.height : Int)) &&
    decide (0 ≤ col) && decide (col < (board.width : Int))

/-- `placePawn(board, pawn)`: throws on out-of-range or occupied position,
otherwise inserts the pawn into registry and grid. -/
def placePawn (board : Board) (pawn : Pawn) : Except ChessError Board :=
  let row := pawn.position.row
  let col := pawn.position.col
  if row < 0 ∨ (board.height : Int) ≤ row ∨ col < 0 ∨ (board.width : Int) ≤ col then
    .error .outOfBounds
  else if (gridGet board.grid row col).isSome then
    .error .occupiedSquare
  else
    .ok { board with
          pawns := regSet board.pawns pawn.id pawn,
          grid := gridSet board.grid row col (some pawn.id) }

/-- One iteration of a `createInitialBoard` placement loop: place the two
pawns of column `i` (rows `rA` and `rB`) carrying the running id counter. -/
def initPlacePair (color : Color) (pfx : String) (rA rB : Int) (st : Board × Nat) (i : Nat) :
    Except ChessError (Board × Nat) := do
  let b ← placePawn st.1
    { id := pfx ++ toString st.2, color := color,
      position := { row := rA, col := (i : Int) }, hasMoved := false }
  let b ← placePawn b
    { id := pfx ++ toString (st.2 + 1), color := color,
      position := { row := rB, col := (i : Int) }, hasMoved := false }
  pure (b, st.2 + 2)

/-- `createInitialBoard()`: 8×8 board, white pawns W1..W16 on rows 0 and 1,
black pawns B17..B32 on rows 6 and 7, id counter shared across colors. -/
def createInitialBoard : Except ChessError Board := do
  let st ← (List.range 8).foldlM (initPlacePair .white "W" 0 1) (createEmptyBoard 8 8, 1)
  let st ← (List.range 8).foldlM (initPlacePair .black "B" 6 7) st
  pure st.1

/-- One iteration of the diagonal-capture loop in `getPawnAllowedMoves`:
`continue` unless the cell `(forwardRow, c)` is in bounds and holds a truthy
id (in JS `if (!targetId) continue` also skips the empty string) mapping to a
registered pawn of the other color. -/
def tryCapture (pawn : Pawn) (board : Board) (forwardRow c : Int) : List Pos :=
  if isValidPosition board forwardRow c then
    match gridGet board.grid forwardRow c with
    | none => []
    | some targetId =>
      if targetId = "" then []
      else
        match regFind board.pawns targetId with
        | none => []
        | some targetPawn =>
          if targetPawn.color = pawn.color then []
          else [{ row := forwardRow, col := c }]
  else []

/-- `getPawnAllowedMoves(pawn, board)`: forward one (if empty), forward two
(first move, both cells empty), then the two diagonal captures, with the
capture loop over `[col-1, col+1]` unrolled. -/
def getPawnAllowedMoves (pawn : Pawn) (board : Board) : List Pos :=
  let row := pawn.position.row
  let col := pawn.position.col
  let direction : Int := if pawn.color = Color.white then 1 else -1
  let forwardRow := row + direction
  let forward :=
    if isValidPosition board forwardRow col && (gridGet board.grid forwardRow col).isNone then
      let twoForwardRow := row + 2 * direction
      if !pawn.hasMoved && isValidPosition board twoForwardRow col &&
          (gridGet board.grid twoForwardRow col).isNone then
        [{ row := forwardRow, col := col }, { row := twoForwardRow, col := col }]
      else
        [{ row := forwardRow, col := col }]
    else []
  forward ++ tryCapture pawn board forwardRow (col - 1) ++ tryCapture pawn board forwardRow (col + 1)

/-- `movePawn(board, pawnId, target)`: look the pawn up, check legality, then
build the cloned board: clear the source cell, delete a captured occupant of
the target cell from the registry, write the updated pawn into registry and
grid.  The clone is explicit in the source (`Object.assign` / `row.slice`),
so the input board value is untouched.  The body after the legality check is
factored out as `movePawnApply`. -/
def movePawnApply (board : Board) (pawn : Pawn) (target : Pos) : Board × Pawn :=
  let oldRow := pawn.position.row
  let oldCol := pawn.position.col
  let grid1 := gridSet board.grid oldRow oldCol none
  let pawns1 :=
    match gridGet grid1 target.row target.col with
    | some targetId =>
      if targetId = "" then board.pawns else regDel board.pawns targetId
    | none => board.pawns
  let updatedPawn : Pawn :=
    { id := pawn.id, color := pawn.color,
      position := { row := target.row, col := target.col }, hasMoved := true }
  ({ board with
     pawns := regSet pawns1 pawn.id updatedPawn,
     grid := gridSet grid1 target.row target.col (some pawn.id) },
   updatedPawn)

def movePawn (board : Board) (pawnId : String) (target : Pos) :
    Except ChessError (Board × Pawn) :=
  match regFind board.pawns pawnId with
  | none => .error .pawnNotFound
  | some pawn =>
    let legalMoves := getPawnAllowedMoves pawn board
    let isLegal := legalMoves.any
      (fun position => position.row == target.row && position.col == target.col)
    if !isLegal then
      .error .illegalMove
    else
      .ok (movePawnApply board pawn target)

/-- `addPawn(board, color, row, col)`: bounds and occupancy checks, then a
pawn with a synthesized id is placed.  The id the source builds from
wall-clock time and randomness is passed in as the parameter `freshId`;
per the spec (§4.5) its only contract is uniqueness. -/
def addPawn (board : Board) (color : Color) (row col : Int) (freshId : String) :
    Except ChessError (Board × Pawn) :=
  if !isValidPosition board row col then
    .error .outOfBounds
  else if (gridGet board.grid row col).isSome then
    .error .occupiedSquare
  else
    let pawn : Pawn :=
      { id := freshId, color := color, position := { row := row, col := col }, hasMoved := false }
    (placePawn board pawn).map (fun b => (b, pawn))

/-- `removePawn(board, pawnId)`: no-op when the id is absent, otherwise
clears the pawn's grid cell and deletes the registry entry. -/
def removePawn (board : Board) (pawnId : String) : Board :=
  match regFind board.pawns pawnId with
  | none => board
  | some pawn =>
    { board with
      grid := gridSet board.grid pawn.position.row pawn.position.col none,
      pawns := regDel board.pawns pawnId }

/-! ### Spec-side move generation (for the refinement claim) -/

/-- Move generation following the wording of spec §4.3, for comparison with
`getPawnAllowedMoves`: forward one if in-bounds and empty; additionally
forward two if the pawn has not moved and that cell is in-bounds and empty;
then each diagonal `(forward row, col∓1)` that is in-bounds and occupied by a
pawn of the opposite color, in the order left capture then right capture. -/
def specDiag (pawn : Pawn) (board : Board) (forwardRow c : Int) : List Pos :=
  if isValidPosition board forwardRow c then
    match gridGet board.grid forwardRow c with
    | none => []
    | some targetId =>
      match regFind board.pawns targetId with
      | none => []
      | some targetPawn =>
        if targetPawn.color = pawn.color then []
        else [{ row := forwardRow, col := c }]
  else []

def specPawnMoves (pawn : Pawn) (board : Board) : List Pos :=
  let row := pawn.position.row
  let col := pawn.position.col
  let direction : Int := if pawn.color = Color.white then 1 else -1
  let forwardRow := row + direction
  let oneOk := isValidPosition board forwardRow col && (gridGet board.grid forwardRow col).isNone
  let one := if oneOk then [({ row := forwardRow, col := col } : Pos)] else []
  let twoForwardRow := row + 2 * direction
  let two :=
    if oneOk && !pawn.hasMoved && isValidPosition board twoForwardRow col &&
        (gridGet board.grid twoForwardRow col).isNone then
      [({ row := twoForwardRow, col := col } : Pos)]
    else []
  one ++ two ++ specDiag pawn board forwardRow (col - 1) ++ specDiag pawn board forwardRow (col + 1)

/-- No cell of the grid stores the empty string as a pawn id (every id the
engine itself generates is nonempty). -/
def gridNoEmptyId (g : Grid) : Bool :=
  g.all (fun row => row.all (fun cell => !(cell == some "")))

theorem gridNoEmptyId_spec (g : Grid) (h : gridNoEmptyId g = true) (r c : Int) :
    gridGet g r c ≠ some "" := by
  intro hc
  obtain ⟨row, hrow, hcell⟩ := gridGet_some_mem g r c "" hc
  rw [gridNoEmptyId, List.all_eq_true] at h
  have := h row hrow
  rw [List.all_eq_true] at this
  simpa using this _ hcell

/-! ### The bidirectional consistency invariant (spec §3) -/

/-- Registry-to-grid direction: every registered pawn records its own key as
id, sits at an in-bounds position, and its cell stores its key. -/
def RegOk (b : Board) : Prop :=
  ∀ k p, regFind b.pawns k = some p →
    p.id = k ∧ isValidPosition b p.position.row p.position.col = true ∧
      gridGet b.grid p.position.row p.position.col = some k

/-- Grid-to-registry direction: every occupied cell's id is registered, and
the registered pawn records exactly that cell as its position. -/
def GridOk (b : Board) : Prop :=
  ∀ r c k, gridGet b.grid r c = some k →
    ∃ p, regFind b.pawns k = some p ∧ p.position = { row := r, col := c }

/-- The board invariant: a well-shaped grid plus the bidirectional
registry/grid consistency of spec §3. -/
def BoardInv (b : Board) : Prop :=
  b.grid.length = b.height ∧ (∀ row ∈ b.grid, row.length = b.width) ∧ RegOk b ∧ GridOk b

/-- Under the invariant no two pawns share a position (spec §3): the shared
cell would have to store both keys. -/
theorem BoardInv_no_shared_position (b : Board) (hb : BoardInv b) (k1 k2 : String) (p1 p2 : Pawn)
    (h1 : regFind b.pawns k1 = some p1) (h2 : regFind b.pawns k2 = some p2)
    (hpos : p1.position = p2.position) : k1 = k2 := by
  obtain ⟨-, -, hreg, -⟩ := hb
  have c1 := (hreg k1 p1 h1).2.2
  have c2 := (hreg k2 p2 h2).2.2
  rw [hpos, c2] at c1
  exact (Option.some.inj c1).symm

/-- Executable rendering of `Inv` for concrete boards. -/
def invCheck (b : Board) : Bool :=
  (b.grid.length == b.height) &&
  b.grid.all (fun row => row.length == b.width) &&
  b.pawns.all (fun e =>
    (regFind b.pawns e.1 == some e.2) &&
    (e.2.id == e.1) &&
    isValidPosition b e.2.position.row e.2.position.col &&
    (gridGet b.grid e.2.position.row e.2.position.col == some e.1)) &&
  (List.range b.height).all (fun r => (List.range b.width).all (fun c =>
    match gridGet b.grid (r : Int) (c : Int) with
    | none => true
    | some k =>
      match regFind b.pawns k with
      | none => false
      | some p => p.position == { row := (r : Int), col := (c : Int) }))

theorem boardInv_of_invCheck (b : Board) (h : invCheck b = true) : BoardInv b := by
  unfold invCheck at h
  simp only [Bool.and_eq_true, beq_iff_eq, List.all_eq_true] at h
  obtain ⟨⟨⟨hlen, hrows⟩, hpawns⟩, hcells⟩ := h
  refine ⟨hlen, hrows, ?_, ?_⟩
  · intro k p hk
    have hmem := regFind_some_mem _ _ _ hk
    have hcl := hpawns (k, p) hmem
    exact ⟨hcl.1.1.2, hcl.1.2, hcl.2⟩
  · intro r c k hget
    obtain ⟨h0r, h0c, hr, hcw⟩ := gridGet_some_bounds _ _ _ _ hget
    have hwidth : c.toNat < b.width := by
      rw [hrows _ (getD_mem b.grid r.toNat [] hr)] at hcw
      exact hcw
    have hcell := hcells r.toNat (List.mem_range.mpr (hlen ▸ hr)) c.toNat
      (List.mem_range.mpr hwidth)
    rw [Int.toNat_of_nonneg h0r, Int.toNat_of_nonneg h0c, hget] at hcell
    cases hfind : regFind b.pawns k with
    | none => simp [hfind] at hcell
    | some p =>
      simp only [hfind] at hcell
      exact ⟨p, rfl, by simpa using hcell⟩

/-! ### Facts about the legal-move set -/

/-- Coordinatewise membership test of `movePawn` agrees with list membership. -/
theorem isLegal_iff_mem (moves : List Pos) (t : Pos) :
    (moves.any (fun position => position.row == t.row && position.col == t.col)) = true ↔
      t ∈ moves := by
  rw [List.any_eq_true]
  constructor
  · rintro ⟨p, hp, hpt⟩
    simp only [Bool.and_eq_true, beq_iff_eq] at hpt
    have hpeq : p = t := by
      cases p
      cases t
      simp_all
    exact hpeq ▸ hp
  · intro hp
    exact ⟨t, hp, by simp⟩

/-- What a produced diagonal capture guarantees. -/
theorem tryCapture_facts (pawn : Pawn) (board : Board) (fr c : Int) (t : Pos)
    (h : t ∈ tryCapture pawn board fr c) :
    t.row = fr ∧ t.col = c ∧ isValidPosition board fr c = true ∧
    ∃ tid q, gridGet board.grid fr c = some tid ∧ tid ≠ "" ∧
      regFind board.pawns tid = some q ∧ q.color ≠ pawn.color := by
  unfold tryCapture at h
  split at h
  · rename_i hvalid
    split at h
    · exact absurd h (List.not_mem_nil t)
    · rename_i tid hcell
      split at h
      · exact absurd h (List.not_mem_nil t)
      · rename_i hne
        split at h
        · exact absurd h (List.not_mem_nil t)
        · rename_i q hfind
          split at h
          · exact absurd h (List.not_mem_nil t)
          · rename_i hcol
            simp only [List.mem_singleton] at h
            subst h
            exact ⟨rfl, rfl, hvalid, tid, q, hcell, hne, hfind, hcol⟩
  · exact absurd h (List.not_mem_nil t)

/-- Every member of the legal-move set is in bounds, sits on a different row
than the pawn, and, if its cell is occupied, the occupant is a registered
pawn of the other color with a nonempty id. -/
theorem allowed_move_facts (pawn : Pawn) (board : Board) (t : Pos)
    (h : t ∈ getPawnAllowedMoves pawn board) :
    isValidPosition board t.row t.col = true ∧
    t.row ≠ pawn.position.row ∧
    (∀ tid, gridGet board.grid t.row t.col = some tid →
      tid ≠ "" ∧ ∃ q, regFind board.pawns tid = some q ∧ q.color ≠ pawn.color) ∧
    (t.col ≠ pawn.position.col →
      ∃ tid q, gridGet board.grid t.row t.col = some tid ∧
        regFind board.pawns tid = some q ∧ q.color ≠ pawn.color) := by
  have hdir : ∃ d : Int, d ≠ 0 ∧ (if pawn.color = Color.white then (1 : Int) else -1) = d := by
    by_cases hcolor : pawn.color = Color.white
    · exact ⟨1, by omega, by rw [if_pos hcolor]⟩
    · exact ⟨-1, by omega, by rw [if_neg hcolor]⟩
  obtain ⟨d, hd0, hd⟩ := hdir
  simp only [getPawnAllowedMoves, hd, List.mem_append] at h
  rcases h with (hf | hc) | hc
  · split at hf
    · rename_i hguard
      rw [Bool.and_eq_true] at hguard
      obtain ⟨hvalid1, hempty1⟩ := hguard
      rw [Option.isNone_iff_eq_none] at hempty1
      split at hf
      · rename_i hguard2
        rw [Bool.and_eq_true, Bool.and_eq_true] at hguard2
        obtain ⟨⟨-, hvalid2⟩, hempty2⟩ := hguard2
        rw [Option.isNone_iff_eq_none] at hempty2
        rcases List.mem_pair.mp hf with rfl | rfl
        · refine ⟨hvalid1, by simp; omega, ?_, fun hcne => absurd rfl hcne⟩
          intro tid htid
          simp only at htid
          rw [hempty1] at htid
          exact Option.noConfusion htid
        · refine ⟨hvalid2, by simp; omega, ?_, fun hcne => absurd rfl hcne⟩
          intro tid htid
          simp only at htid
          rw [hempty2] at htid
          exact Option.noConfusion htid
      · rw [List.mem_singleton] at hf
        subst hf
        refine ⟨hvalid1, by simp; omega, ?_, fun hcne => absurd rfl hcne⟩
        intro tid htid
        simp only at htid
        rw [hempty1] at htid
        exact Option.noConfusion htid
    · exact absurd hf (List.not_mem_nil t)
  · obtain ⟨hrow, hcol, hvalid, tid, q, hcell, hne, hfind, hcolr⟩ :=
      tryCapture_facts _ _ _ _ _ hc
    refine ⟨by rw [hrow, hcol]; exact hvalid, by rw [hrow]; omega, ?_, ?_⟩
    · intro tid0 htid
      rw [hrow, hcol, hcell] at htid
      cases Option.some.inj htid
      exact ⟨hne, q, hfind, hcolr⟩
    · intro hcne
      exact ⟨tid, q, by rw [hrow, hcol]; exact hcell, hfind, hcolr⟩
  · obtain ⟨hrow, hcol, hvalid, tid, q, hcell, hne, hfind, hcolr⟩ :=
      tryCapture_facts _ _ _ _ _ hc
    refine ⟨by rw [hrow, hcol]; exact hvalid, by rw [hrow]; omega, ?_, ?_⟩
    · intro tid0 htid
      rw [hrow, hcol, hcell] at htid
      cases Option.some.inj htid
      exact ⟨hne, q, hfind, hcolr⟩
    · intro hcne
      exact ⟨tid, q, by rw [hrow, hcol]; exact hcell, hfind, hcolr⟩

/-! ### Invariant preservation -/

theorem isValidPosition_iff (board : Board) (row col : Int) :
    isValidPosition board row col = true ↔
      0 ≤ row ∧ row < (board.height : Int) ∧ 0 ≤ col ∧ col < (board.width : Int) := by
  unfold isValidPosition
  simp [Bool.and_eq_true, decide_eq_true_eq, and_assoc]

theorem gridGet_gridSet_self_of_valid (board : Board) (r c : Int) (v : Option String)
    (hlen : board.grid.length = board.height)
    (hrows : ∀ row ∈ board.grid, row.length = board.width)
    (hvalid : isValidPosition board r c = true) :
    gridGet (gridSet board.grid r c v) r c = v := by
  rw [isValidPosition_iff] at hvalid
  obtain ⟨h0r, hrh, h0c, hcw⟩ := hvalid
  refine gridGet_gridSet_self _ _ _ _ h0r h0c (by rw [hlen]; omega) ?_
  rw [hrows _ (getD_mem _ _ _ (by rw [hlen]; omega))]
  omega

/-- Success characterization of `placePawn`: the checks passed and the result
is the board with the pawn written into registry and grid. -/
theorem placePawn_eq_ok (board : Board) (pawn : Pawn) (b' : Board)
    (h : placePawn board pawn = .ok b') :
    isValidPosition board pawn.position.row pawn.position.col = true ∧
    gridGet board.grid pawn.position.row pawn.position.col = none ∧
    b' = { board with
           pawns := regSet board.pawns pawn.id pawn,
           grid := gridSet board.grid pawn.position.row pawn.position.col (some pawn.id) } := by
  unfold placePawn at h
  dsimp only at h
  split at h
  · exact Except.noConfusion h
  · rename_i hoob
    split at h
    · exact Except.noConfusion h
    · rename_i hocc
      refine ⟨?_, Option.not_isSome_iff_eq_none.mp hocc, (Except.ok.inj h).symm⟩
      rw [isValidPosition_iff]
      omega

/-- `placePawn` with a fresh id preserves the invariant. -/
theorem placePawn_preserves_inv (board : Board) (pawn : Pawn) (b' : Board)
    (hinv : BoardInv board) (hfresh : regFind board.pawns pawn.id = none)
    (h : placePawn board pawn = .ok b') : BoardInv b' := by
  obtain ⟨hvalid, hempty, rfl⟩ := placePawn_eq_ok board pawn b' h
  obtain ⟨hlen, hrows, hreg, hgrid⟩ := hinv
  refine ⟨?_, ?_, ?_, ?_⟩
  · rw [length_gridSet]
    exact hlen
  · exact row_length_gridSet _ _ _ _ _ hrows
  · intro k p hk
    by_cases hkp : k = pawn.id
    · subst hkp
      rw [regFind_regSet_self] at hk
      cases Option.some.inj hk
      exact ⟨rfl, hvalid,
        gridGet_gridSet_self_of_valid board _ _ _ hlen hrows hvalid⟩
    · rw [regFind_regSet_ne _ _ _ _ hkp] at hk
      obtain ⟨hid, hval, hcell⟩ := hreg k p hk
      refine ⟨hid, hval, ?_⟩
      rw [gridGet_gridSet_ne]
      · exact hcell
      · rintro ⟨her, hec⟩
        rw [her, hec, hcell] at hempty
        exact Option.noConfusion hempty
  · intro r c k hk
    by_cases hrc : pawn.position.row = r ∧ pawn.position.col = c
    · obtain ⟨hr1, hc1⟩ := hrc
      rw [← hr1, ← hc1,
        gridGet_gridSet_self_of_valid board _ _ _ hlen hrows hvalid] at hk
      cases Option.some.inj hk
      refine ⟨pawn, by rw [regFind_regSet_self], ?_⟩
      rw [← hr1, ← hc1]
    · rw [gridGet_gridSet_ne _ _ _ _ _ _ hrc] at hk
      obtain ⟨p, hp1, hp2⟩ := hgrid r c k hk
      by_cases hkp : k = pawn.id
      · subst hkp
        rw [hfresh] at hp1
        exact Option.noConfusion hp1
      · exact ⟨p, by rw [regFind_regSet_ne _ _ _ _ hkp]; exact hp1, hp2⟩

/-- `removePawn` preserves the invariant (for present and absent ids alike). -/
theorem removePawn_preserves_inv (board : Board) (pawnId : String)
    (hinv : BoardInv board) : BoardInv (removePawn board pawnId) := by
  obtain ⟨hlen, hrows, hreg, hgrid⟩ := hinv
  unfold removePawn
  cases hfind : regFind board.pawns pawnId with
  | none => exact ⟨hlen, hrows, hreg, hgrid⟩
  | some pawn =>
    refine ⟨?_, ?_, ?_, ?_⟩
    · rw [length_gridSet]
      exact hlen
    · exact row_length_gridSet _ _ _ _ _ hrows
    · intro k p hk
      have hkne : k ≠ pawnId := by
        intro hc
        subst hc
        rw [regFind_regDel_self] at hk
        exact Option.noConfusion hk
      rw [regFind_regDel_ne _ _ _ hkne] at hk
      obtain ⟨hid, hval, hcell⟩ := hreg k p hk
      refine ⟨hid, hval, ?_⟩
      rw [gridGet_gridSet_ne]
      · exact hcell
      · rintro ⟨her, hec⟩
        have hcell2 := (hreg pawnId pawn hfind).2.2
        rw [her, hec] at hcell2
        rw [hcell2] at hcell
        exact hkne (Option.some.inj hcell).symm
    · intro r c k hk
      by_cases hrc : pawn.position.row = r ∧ pawn.position.col = c
      · obtain ⟨hr1, hc1⟩ := hrc
        rw [← hr1, ← hc1, gridGet_gridSet_self_none] at hk
        exact Option.noConfusion hk
      · rw [gridGet_gridSet_ne _ _ _ _ _ _ hrc] at hk
        obtain ⟨p, hp1, hp2⟩ := hgrid r c k hk
        have hkne : k ≠ pawnId := by
          intro hc
          subst hc
          rw [hfind] at hp1
          cases Option.some.inj hp1
          exact hrc ⟨by rw [hp2], by rw [hp2]⟩
        exact ⟨p, by rw [regFind_regDel_ne _ _ _ hkne]; exact hp1, hp2⟩

/-- Success inversion for `movePawn`: the pawn was found, the target legal,
and the result is `movePawnApply`. -/
theorem movePawn_ok_inv (board : Board) (pawnId : String) (t : Pos) (b' : Board) (p' : Pawn)
    (h : movePawn board pawnId t = .ok (b', p')) :
    ∃ pawn, regFind board.pawns pawnId = some pawn ∧ t ∈ getPawnAllowedMoves pawn board ∧
      (b', p') = movePawnApply board pawn t := by
  unfold movePawn at h
  cases hfind : regFind board.pawns pawnId with
  | none =>
    rw [hfind] at h
    exact Except.noConfusion h
  | some pawn =>
    rw [hfind] at h
    dsimp only at h
    split at h
    · exact Except.noConfusion h
    · rename_i hleg
      have hleg2 : ((getPawnAllowedMoves pawn board).any
          fun position => position.row == t.row && position.col == t.col) = true := by
        cases hx : ((getPawnAllowedMoves pawn board).any
            fun position => position.row == t.row && position.col == t.col) with
        | false =>
          rw [hx] at hleg
          exact absurd rfl hleg
        | true => rfl
      exact ⟨pawn, rfl, (isLegal_iff_mem _ _).mp hleg2, (Except.ok.inj h).symm⟩

/-- Conversely, a found pawn and a legal target make `movePawn` succeed. -/
theorem movePawn_eq_ok (board : Board) (pawnId : String) (t : Pos) (pawn : Pawn)
    (hfind : regFind board.pawns pawnId = some pawn)
    (hmem : t ∈ getPawnAllowedMoves pawn board) :
    movePawn board pawnId t = .ok (movePawnApply board pawn t) := by
  unfold movePawn
  rw [hfind]
  dsimp only
  rw [(isLegal_iff_mem _ _).mpr hmem]
  rfl

theorem gridGet_gridSet_self' (g : Grid) (r c : Int) (v : Option String) (H W : Nat)
    (hL : g.length = H) (hW : ∀ row ∈ g, row.length = W)
    (h0r : 0 ≤ r) (hrH : r < (H : Int)) (h0c : 0 ≤ c) (hcW : c < (W : Int)) :
    gridGet (gridSet g r c v) r c = v := by
  refine gridGet_gridSet_self _ _ _ _ h0r h0c (by rw [hL]; omega) ?_
  rw [hW _ (getD_mem _ _ _ (by rw [hL]; omega))]
  omega

/-- Full effect of the success branch of `movePawn` on an invariant-satisfying
board: the returned pawn record, the relocation in registry and grid, the
removal of a captured occupant, and preservation of the invariant. -/
theorem movePawnApply_spec (board : Board) (pawnId : String) (pawn : Pawn) (t : Pos)
    (hinv : BoardInv board)
    (hfind : regFind board.pawns pawnId = some pawn)
    (hmem : t ∈ getPawnAllowedMoves pawn board) :
    (movePawnApply board pawn t).2 =
      { id := pawnId, color := pawn.color, position := t, hasMoved := true } ∧
    regFind (movePawnApply board pawn t).1.pawns pawnId = some (movePawnApply board pawn t).2 ∧
    gridGet (movePawnApply board pawn t).1.grid pawn.position.row pawn.position.col = none ∧
    gridGet (movePawnApply board pawn t).1.grid t.row t.col = some pawnId ∧
    BoardInv (movePawnApply board pawn t).1 ∧
    (∀ tid, gridGet board.grid t.row t.col = some tid →
      regFind (movePawnApply board pawn t).1.pawns tid = none) := by
  obtain ⟨hlen, hrows, hreg, hgrid⟩ := hinv
  obtain ⟨hid, hpval, hpcell⟩ := hreg pawnId pawn hfind
  obtain ⟨htval, htrow, hocc, -⟩ := allowed_move_facts pawn board t hmem
  have htne : ¬ (pawn.position.row = t.row ∧ pawn.position.col = t.col) :=
    fun hc => htrow hc.1.symm
  have hoffR : ¬ (t.row = pawn.position.row ∧ t.col = pawn.position.col) :=
    fun hc => htrow hc.1
  have hg1len :
      (gridSet board.grid pawn.position.row pawn.position.col none).length = board.height := by
    rw [length_gridSet]
    exact hlen
  have hg1rows :=
    row_length_gridSet board.grid pawn.position.row pawn.position.col none _ hrows
  have htval' := (isValidPosition_iff board t.row t.col).mp htval
  have hselfT :
      gridGet (gridSet (gridSet board.grid pawn.position.row pawn.position.col none)
        t.row t.col (some pawn.id)) t.row t.col = some pawn.id :=
    gridGet_gridSet_self' _ _ _ _ _ _ hg1len hg1rows
      htval'.1 htval'.2.1 htval'.2.2.1 htval'.2.2.2
  have hselfOld :
      gridGet (gridSet (gridSet board.grid pawn.position.row pawn.position.col none)
        t.row t.col (some pawn.id)) pawn.position.row pawn.position.col = none := by
    rw [gridGet_gridSet_ne _ _ _ _ _ _ hoffR, gridGet_gridSet_self_none]
  have hg1t :
      gridGet (gridSet board.grid pawn.position.row pawn.position.col none) t.row t.col =
        gridGet board.grid t.row t.col := gridGet_gridSet_ne _ _ _ _ _ _ htne
  unfold movePawnApply
  dsimp only
  rw [hg1t]
  cases hcell : gridGet board.grid t.row t.col with
  | none =>
    dsimp only
    refine ⟨by rw [hid], by rw [hid]; exact regFind_regSet_self _ _ _, hselfOld,
      by rw [← hid]; exact hselfT, ?_, ?_⟩
    · refine ⟨?_, ?_, ?_, ?_⟩
      · rw [length_gridSet]
        exact hg1len
      · exact row_length_gridSet _ _ _ _ _ hg1rows
      · intro k p hk
        by_cases hkp : k = pawn.id
        · subst hkp
          rw [regFind_regSet_self] at hk
          cases Option.some.inj hk
          exact ⟨rfl, htval, hselfT⟩
        · rw [regFind_regSet_ne _ _ _ _ hkp] at hk
          obtain ⟨hkid, hkval, hkcell⟩ := hreg k p hk
          have hkpId : k ≠ pawnId := by rw [← hid]; exact hkp
          have hpne : ¬ (t.row = p.position.row ∧ t.col = p.position.col) := by
            rintro ⟨h1, h2⟩
            rw [← h1, ← h2, hcell] at hkcell
            exact Option.noConfusion hkcell
          have hpneOld : ¬ (pawn.position.row = p.position.row ∧
              pawn.position.col = p.position.col) := by
            rintro ⟨h1, h2⟩
            rw [h1, h2] at hpcell
            rw [hpcell] at hkcell
            exact hkpId (Option.some.inj hkcell).symm
          refine ⟨hkid, hkval, ?_⟩
          rw [gridGet_gridSet_ne _ _ _ _ _ _ hpne,
            gridGet_gridSet_ne _ _ _ _ _ _ hpneOld]
          exact hkcell
      · intro r c k hk
        by_cases hrc : t.row = r ∧ t.col = c
        · obtain ⟨hr1, hc1⟩ := hrc
          rw [← hr1, ← hc1, hselfT] at hk
          cases Option.some.inj hk
          refine ⟨_, regFind_regSet_self _ _ _, ?_⟩
          dsimp only
          rw [← hr1, ← hc1]
        · rw [gridGet_gridSet_ne _ _ _ _ _ _ hrc] at hk
          by_cases hrcOld : pawn.position.row = r ∧ pawn.position.col = c
          · rw [← hrcOld.1, ← hrcOld.2, gridGet_gridSet_self_none] at hk
            exact Option.noConfusion hk
          · rw [gridGet_gridSet_ne _ _ _ _ _ _ hrcOld] at hk
            obtain ⟨p, hp1, hp2⟩ := hgrid r c k hk
            have hkp : k ≠ pawn.id := by
              intro hc
              subst hc
              rw [hid, hfind] at hp1
              cases Option.some.inj hp1
              exact hrcOld ⟨by rw [hp2], by rw [hp2]⟩
            exact ⟨p, by rw [regFind_regSet_ne _ _ _ _ hkp]; exact hp1, hp2⟩
    · intro tid htid
      exact Option.noConfusion htid
  | some tid =>
    obtain ⟨hne, q, hqfind, hqcol⟩ := hocc tid hcell
    obtain ⟨q0, hq0find, hq0pos⟩ := hgrid t.row t.col tid hcell
    rw [hqfind] at hq0find
    cases Option.some.inj hq0find
    have htidId : tid ≠ pawnId := by
      intro hc
      subst hc
      rw [hfind] at hqfind
      cases Option.some.inj hqfind
      exact hqcol rfl
    dsimp only
    rw [if_neg hne]
    refine ⟨by rw [hid], by rw [hid]; exact regFind_regSet_self _ _ _, hselfOld,
      by rw [← hid]; exact hselfT, ?_, ?_⟩
    · refine ⟨?_, ?_, ?_, ?_⟩
      · rw [length_gridSet]
        exact hg1len
      · exact row_length_gridSet _ _ _ _ _ hg1rows
      · intro k p hk
        by_cases hkp : k = pawn.id
        · subst hkp
          rw [regFind_regSet_self] at hk
          cases Option.some.inj hk
          exact ⟨rfl, htval, hselfT⟩
        · rw [regFind_regSet_ne _ _ _ _ hkp] at hk
          have hktid : k ≠ tid := by
            intro hc
            subst hc
            rw [regFind_regDel_self] at hk
            exact Option.noConfusion hk
          rw [regFind_regDel_ne _ _ _ hktid] at hk
          obtain ⟨hkid, hkval, hkcell⟩ := hreg k p hk
          have hkpId : k ≠ pawnId := by rw [← hid]; exact hkp
          have hpne : ¬ (t.row = p.position.row ∧ t.col = p.position.col) := by
            rintro ⟨h1, h2⟩
            rw [← h1, ← h2, hcell] at hkcell
            exact hktid (Option.some.inj hkcell).symm
          have hpneOld : ¬ (pawn.position.row = p.position.row ∧
              pawn.position.col = p.position.col) := by
            rintro ⟨h1, h2⟩
            rw [h1, h2] at hpcell
            rw [hpcell] at hkcell
            exact hkpId (Option.some.inj hkcell).symm
          refine ⟨hkid, hkval, ?_⟩
          rw [gridGet_gridSet_ne _ _ _ _ _ _ hpne,
            gridGet_gridSet_ne _ _ _ _ _ _ hpneOld]
          exact hkcell
      · intro r c k hk
        by_cases hrc : t.row = r ∧ t.col = c
        · obtain ⟨hr1, hc1⟩ := hrc
          rw [← hr1, ← hc1, hselfT] at hk
          cases Option.some.inj hk
          refine ⟨_, regFind_regSet_self _ _ _, ?_⟩
          dsimp only
          rw [← hr1, ← hc1]
        · rw [gridGet_gridSet_ne _ _ _ _ _ _ hrc] at hk
          by_cases hrcOld : pawn.position.row = r ∧ pawn.position.col = c
          · rw [← hrcOld.1, ← hrcOld.2, gridGet_gridSet_self_none] at hk
            exact Option.noConfusion hk
          · rw [gridGet_gridSet_ne _ _ _ _ _ _ hrcOld] at hk
            obtain ⟨p, hp1, hp2⟩ := hgrid r c k hk
            have hkp : k ≠ pawn.id := by
              intro hc
              subst hc
              rw [hid, hfind] at hp1
              cases Option.some.inj hp1
              exact hrcOld ⟨by rw [hp2], by rw [hp2]⟩
            have hktid : k ≠ tid := by
              intro hc
              subst hc
              rw [hqfind] at hp1
              cases Option.some.inj hp1
              rw [hq0pos] at hp2
              exact hrc ⟨congrArg Pos.row hp2, congrArg Pos.col hp2⟩
            refine ⟨p, ?_, hp2⟩
            rw [regFind_regSet_ne _ _ _ _ hkp, regFind_regDel_ne _ _ _ hktid]
            exact hp1
    · intro tid0 htid0
      cases Option.some.inj htid0
      rw [regFind_regSet_ne _ _ _ _ (by rw [hid]; exact htidId), regFind_regDel_self]

/-- When no grid cell stores the empty-string id, the JS truthiness guard in
the capture loop coincides with the spec's occupancy test. -/
theorem tryCapture_eq_specDiag (pawn : Pawn) (board : Board) (fr c : Int)
    (h : gridNoEmptyId board.grid = true) :
    tryCapture pawn board fr c = specDiag pawn board fr c := by
  unfold tryCapture specDiag
  split
  · cases hcell : gridGet board.grid fr c with
    | none => rfl
    | some tid =>
      dsimp only
      rw [if_neg (fun (hc : tid = "") => gridNoEmptyId_spec _ h fr c (hc ▸ hcell))]
  · rfl

/-- List shape of the forward-move block: the source's nested conditional
versus the spec's two separate singleton blocks. -/
theorem forward_split (hm A G1 G2 : Bool) (f t2 : Pos) :
    (if A = true then (if (!hm && G1 && G2) = true then [f, t2] else [f]) else []) =
    (if A = true then [f] else []) ++
      (if (A && !hm && G1 && G2) = true then [t2] else []) := by
  cases A <;> cases hm <;> cases G1 <;> cases G2 <;> rfl

/-- On boards without empty-string ids, the source's move generation agrees
with the spec's algorithm (same destinations, same order). -/
theorem getPawnAllowedMoves_eq_spec (pawn : Pawn) (board : Board)
    (h : gridNoEmptyId board.grid = true) :
    getPawnAllowedMoves pawn board = specPawnMoves pawn board := by
  unfold getPawnAllowedMoves specPawnMoves
  dsimp only
  rw [tryCapture_eq_specDiag pawn board _ _ h, tryCapture_eq_specDiag pawn board _ _ h]
  congr 1
  congr 1
  exact forward_split pawn.hasMoved _ _ _ _ _

/-- Success inversion for `addPawn`: the synthesized pawn and the underlying
`placePawn` call. -/
theorem addPawn_ok_inv (board : Board) (color : Color) (row col : Int) (freshId : String)
    (b' : Board) (p : Pawn) (h : addPawn board color row col freshId = .ok (b', p)) :
    p = { id := freshId, color := color, position := { row := row, col := col },
          hasMoved := false } ∧
    placePawn board p = .ok b' := by
  unfold addPawn at h
  split at h
  · exact Except.noConfusion h
  · split at h
    · exact Except.noConfusion h
    · dsimp only at h
      cases hp : placePawn board
        { id := freshId, color := color, position := { row := row, col := col },
          hasMoved := false } with
      | error e =>
        rw [hp] at h
        exact Except.noConfusion h
      | ok b2 =>
        rw [hp] at h
        cases Except.ok.inj h
        exact ⟨rfl, hp⟩

/-! ### Concrete boards for witnesses and counterexamples -/

/-- White pawn used in the witness board. -/
def pawnWa : Pawn :=
  { id := "Wa", color := .white, position := { row := 1, col := 1 }, hasMoved := false }

/-- Black pawn on the white pawn's right capture diagonal. -/
def pawnBb : Pawn :=
  { id := "Bb", color := .black, position := { row := 2, col := 2 }, hasMoved := false }

/-- White pawn on the white pawn's left capture diagonal. -/
def pawnWc : Pawn :=
  { id := "Wc", color := .white, position := { row := 2, col := 0 }, hasMoved := false }

/-- A consistent 4×4 board: Wa at (1,1), Bb at (2,2), Wc at (2,0). -/
def testBoard : Board :=
  { width := 4, height := 4,
    pawns := [("Wa", pawnWa), ("Bb", pawnBb), ("Wc", pawnWc)],
    grid := [[none, none, none, none],
             [none, some "Wa", none, none],
             [some "Wc", none, some "Bb", none],
             [none, none, none, none]] }

/-- A white pawn whose diagonal capture target has the empty-string id. -/
def pawnW00 : Pawn :=
  { id := "w", color := .white, position := { row := 0, col := 0 }, hasMoved := false }

/-- A black pawn registered under the empty-string id. -/
def pawnEmptyId : Pawn :=
  { id := "", color := .black, position := { row := 1, col := 1 }, hasMoved := false }

/-- 3×3 board with a pawn whose id is the empty string at (1,1). -/
def emptyIdBoard : Board :=
  { width := 3, height := 3,
    pawns := [("w", pawnW00), ("", pawnEmptyId)],
    grid := [[some "w", none, none],
             [none, some "", none],
             [none, none, none]] }

/-- Pawn with id "A" at (0,0). -/
def pawnA00 : Pawn :=
  { id := "A", color := .white, position := { row := 0, col := 0 }, hasMoved := false }

/-- A second pawn reusing the id "A", at (1,1). -/
def pawnA11 : Pawn :=
  { id := "A", color := .white, position := { row := 1, col := 1 }, hasMoved := false }

/-- Consistent 2×2 board holding only `pawnA00`. -/
def dupBoard : Board :=
  { width := 2, height := 2,
    pawns := [("A", pawnA00)],
    grid := [[some "A", none], [none, none]] }

/-- The board `placePawn dupBoard pawnA11` returns: the registry record for
"A" now points at (1,1) while cell (0,0) still stores "A". -/
def dupBoard1 : Board :=
  { width := 2, height := 2,
    pawns := [("A", pawnA11)],
    grid := [[some "A", none], [none, some "A"]] }

/-! ### Claims -/

/-- C1 (counterexample): on a board holding a pawn registered under the
empty-string id, the source's capture loop (`if (!targetId) continue`, which
treats `""` as falsy) skips a diagonal capture the spec's algorithm
prescribes, so `getPawnAllowedMoves` does not return exactly the spec's
destinations. -/
theorem C1_counterexample :
    getPawnAllowedMoves pawnW00 emptyIdBoard ≠ specPawnMoves pawnW00 emptyIdBoard := by
  decide

/-- C1 (amended): on every board none of whose cells stores the empty string
as a pawn id — which holds for every id the engine itself generates —
`getPawnAllowedMoves` returns exactly the destinations of the spec's
algorithm, in the order forward-one, forward-two, diagonal-left capture,
diagonal-right capture.  (Neither function mutates anything: both are pure
Lean functions of the pawn and the board.) -/
theorem C1_moves_match_spec (pawn : Pawn) (board : Board)
    (h : gridNoEmptyId board.grid = true) :
    getPawnAllowedMoves pawn board = specPawnMoves pawn board :=
  getPawnAllowedMoves_eq_spec pawn board h

/-- C1 witness: the amended theorem applied to a concrete pawn and board. -/
theorem C1_moves_match_spec_witness :
    gridNoEmptyId testBoard.grid = true ∧
    getPawnAllowedMoves pawnWa testBoard = specPawnMoves pawnWa testBoard :=
  ⟨by decide, C1_moves_match_spec pawnWa testBoard (by decide)⟩

/-- C2 (counterexample): `placePawn` succeeds on a pawn whose id is already
registered (it checks only bounds and occupancy), overwriting the registry
record while the old grid cell keeps the id — so the bidirectional
consistency invariant is not preserved by every successful public
operation. -/
theorem C2_counterexample :
    BoardInv dupBoard ∧ placePawn dupBoard pawnA11 = .ok dupBoard1 ∧ ¬ BoardInv dupBoard1 := by
  refine ⟨boardInv_of_invCheck _ (by decide), by rfl, ?_⟩
  rintro ⟨-, -, -, hgrid⟩
  obtain ⟨p, hp1, hp2⟩ := hgrid 0 0 "A" (by decide)
  rw [show regFind dupBoard1.pawns "A" = some pawnA11 from by decide] at hp1
  cases Option.some.inj hp1
  exact absurd hp2 (by decide)

/-- C2 (amended): every public operation preserves the bidirectional
consistency invariant (which subsumes uniqueness of positions, see
`BoardInv_no_shared_position`), provided the id inserted by `placePawn` —
and the id `addPawn` synthesizes, whose required property per the spec is
exactly uniqueness — is not already registered.  `movePawn` (on its returned
board) and `removePawn` preserve it unconditionally. -/
theorem C2_operations_preserve_invariant :
    (∀ board pawn b', BoardInv board → regFind board.pawns pawn.id = none →
      placePawn board pawn = .ok b' → BoardInv b') ∧
    (∀ board pawnId t b' p', BoardInv board →
      movePawn board pawnId t = .ok (b', p') → BoardInv b') ∧
    (∀ board color row col freshId b' p, BoardInv board →
      regFind board.pawns freshId = none →
      addPawn board color row col freshId = .ok (b', p) → BoardInv b') ∧
    (∀ board pawnId, BoardInv board → BoardInv (removePawn board pawnId)) := by
  refine ⟨placePawn_preserves_inv, ?_, ?_, removePawn_preserves_inv⟩
  · intro board pawnId t b' p' hinv h
    obtain ⟨pawn, hfind, hmem, heq⟩ := movePawn_ok_inv board pawnId t b' p' h
    have hb' : b' = (movePawnApply board pawn t).1 := congrArg Prod.fst heq
    rw [hb']
    exact (movePawnApply_spec board pawnId pawn t hinv hfind hmem).2.2.2.2.1
  · intro board color row col freshId b' p hinv hfresh h
    obtain ⟨hp, hplace⟩ := addPawn_ok_inv board color row col freshId b' p h
    refine placePawn_preserves_inv board p b' hinv ?_ hplace
    rw [hp]
    exact hfresh

/-- A succeeding `Except` computation is determined by its `toOption`
projection (lets concrete success equations be checked by `decide`). -/
theorem except_eq_ok_of_toOption {e : Type} {a : Type} (x : Except e a) (v : a)
    (h : x.toOption = some v) : x = .ok v := by
  cases x with
  | error y => exact Option.noConfusion h
  | ok b =>
    rw [Option.some.inj h]

/-- A fresh white pawn at the empty cell (0,0) of `testBoard`. -/
def pawnWd : Pawn :=
  { id := "Wd", color := .white, position := { row := 0, col := 0 }, hasMoved := false }

/-- The board `placePawn testBoard pawnWd` produces. -/
def C2placeRes : Board := (placePawn testBoard pawnWd).toOption.getD (createEmptyBoard 0 0)

/-- The board/pawn pair `movePawn testBoard "Wa" (2,1)` produces. -/
def C2moveRes : Board × Pawn :=
  (movePawn testBoard "Wa" { row := 2, col := 1 }).toOption.getD (createEmptyBoard 0 0, pawnWa)

/-- The board/pawn pair `addPawn testBoard black 3 3 "Bz"` produces. -/
def C2addRes : Board × Pawn :=
  (addPawn testBoard .black 3 3 "Bz").toOption.getD (createEmptyBoard 0 0, pawnWa)

/-- C2 witness: all four operations applied on a concrete consistent board. -/
theorem C2_operations_preserve_invariant_witness :
    BoardInv C2placeRes ∧ BoardInv C2moveRes.1 ∧ BoardInv C2addRes.1 ∧
    BoardInv (removePawn testBoard "Bb") :=
  ⟨C2_operations_preserve_invariant.1 testBoard pawnWd C2placeRes
      (boardInv_of_invCheck _ (by decide)) (by decide)
      (except_eq_ok_of_toOption _ _ (by decide)),
   C2_operations_preserve_invariant.2.1 testBoard "Wa" { row := 2, col := 1 }
      C2moveRes.1 C2moveRes.2 (boardInv_of_invCheck _ (by decide))
      (except_eq_ok_of_toOption _ _ (by decide)),
   C2_operations_preserve_invariant.2.2.1 testBoard .black 3 3 "Bz"
      C2addRes.1 C2addRes.2 (boardInv_of_invCheck _ (by decide)) (by decide)
      (except_eq_ok_of_toOption _ _ (by decide)),
   C2_operations_preserve_invariant.2.2.2 testBoard "Bb"
      (boardInv_of_invCheck _ (by decide))⟩

/-- C3: for every consistent board, registered pawn and legal target,
`movePawn` succeeds and returns a board in which the moving pawn sits at the
target with `hasMoved = true`, the source cell is empty and the target cell
stores its id.  (The input board is untouched by construction: `movePawn`
builds a clone and the embedding is purely functional.) -/
theorem C3_movePawn_effects (board : Board) (pawnId : String) (pawn : Pawn) (t : Pos)
    (hinv : BoardInv board)
    (hfind : regFind board.pawns pawnId = some pawn)
    (hmem : t ∈ getPawnAllowedMoves pawn board) :
    ∃ b' p', movePawn board pawnId t = .ok (b', p') ∧
      p' = { id := pawnId, color := pawn.color, position := t, hasMoved := true } ∧
      regFind b'.pawns pawnId = some p' ∧
      gridGet b'.grid pawn.position.row pawn.position.col = none ∧
      gridGet b'.grid t.row t.col = some pawnId := by
  obtain ⟨h1, h2, h3, h4, -, -⟩ := movePawnApply_spec board pawnId pawn t hinv hfind hmem
  exact ⟨_, _, movePawn_eq_ok board pawnId t pawn hfind hmem, h1, h2, h3, h4⟩

/-- C3 witness: moving Wa one step forward on the concrete board. -/
theorem C3_movePawn_effects_witness :
    ∃ b' p', movePawn testBoard "Wa" { row := 2, col := 1 } = .ok (b', p') ∧
      p' = { id := "Wa", color := pawnWa.color, position := { row := 2, col := 1 },
             hasMoved := true } ∧
      regFind b'.pawns "Wa" = some p' ∧
      gridGet b'.grid pawnWa.position.row pawnWa.position.col = none ∧
      gridGet b'.grid 2 1 = some "Wa" :=
  C3_movePawn_effects testBoard "Wa" pawnWa { row := 2, col := 1 }
    (boardInv_of_invCheck _ (by decide)) (by decide) (by decide)

/-- C4: on a consistent board, a legal `movePawn` whose target cell holds an
opposite-color pawn removes that pawn from the returned registry and stores
the mover's id in the target cell; and a target occupied by a same-color
pawn is never in the legal set, so `movePawn` fails with IllegalMove
there. -/
theorem C4_capture_semantics (board : Board) (pawnId : String) (pawn : Pawn) (t : Pos)
    (tid : String) (q : Pawn)
    (hinv : BoardInv board)
    (hfind : regFind board.pawns pawnId = some pawn)
    (hcell : gridGet board.grid t.row t.col = some tid)
    (hq : regFind board.pawns tid = some q) :
    (q.color ≠ pawn.color → t ∈ getPawnAllowedMoves pawn board →
      ∃ b' p', movePawn board pawnId t = .ok (b', p') ∧
        regFind b'.pawns tid = none ∧ gridGet b'.grid t.row t.col = some pawnId) ∧
    (q.color = pawn.color →
      t ∉ getPawnAllowedMoves pawn board ∧
      movePawn board pawnId t = .error .illegalMove) := by
  constructor
  · intro hcol hmem
    obtain ⟨-, -, -, h4, -, h6⟩ := movePawnApply_spec board pawnId pawn t hinv hfind hmem
    exact ⟨_, _, movePawn_eq_ok board pawnId t pawn hfind hmem, h6 tid hcell, h4⟩
  · intro hcol
    have hnot : t ∉ getPawnAllowedMoves pawn board := by
      intro hmem
      obtain ⟨-, -, hocc, -⟩ := allowed_move_facts pawn board t hmem
      obtain ⟨-, q2, hq2, hq2col⟩ := hocc tid hcell
      rw [hq] at hq2
      cases Option.some.inj hq2
      exact hq2col hcol
    refine ⟨hnot, ?_⟩
    unfold movePawn
    rw [hfind]
    dsimp only
    have hfal : ((getPawnAllowedMoves pawn board).any
        fun position => position.row == t.row && position.col == t.col) = false := by
      cases hx : ((getPawnAllowedMoves pawn board).any
          fun position => position.row == t.row && position.col == t.col) with
      | true => exact absurd ((isLegal_iff_mem _ _).mp hx) hnot
      | false => rfl
    rw [hfal]
    rfl

/-- C4 witness: capturing Bb on the diagonal succeeds and removes it; the
same-color cell (2,0) is not legal and fails with IllegalMove. -/
theorem C4_capture_semantics_witness :
    (∃ b' p', movePawn testBoard "Wa" { row := 2, col := 2 } = .ok (b', p') ∧
      regFind b'.pawns "Bb" = none ∧ gridGet b'.grid 2 2 = some "Wa") ∧
    (({ row := 2, col := 0 } : Pos) ∉ getPawnAllowedMoves pawnWa testBoard ∧
      movePawn testBoard "Wa" { row := 2, col := 0 } = .error .illegalMove) :=
  ⟨(C4_capture_semantics testBoard "Wa" pawnWa { row := 2, col := 2 } "Bb" pawnBb
      (boardInv_of_invCheck _ (by decide)) (by decide) (by decide) (by decide)).1
      (by decide) (by decide),
   (C4_capture_semantics testBoard "Wa" pawnWa { row := 2, col := 0 } "Wc" pawnWc
      (boardInv_of_invCheck _ (by decide)) (by decide) (by decide) (by decide)).2
      (by decide)⟩

/-- C5: `movePawn` fails with PawnNotFound exactly when the id is absent
from the registry, and, when the pawn exists, fails with IllegalMove exactly
when the target is not among its allowed moves.  (In either failure case the
input board is unchanged by construction: the embedding returns only the
error and the caller's board value is immutable.) -/
theorem C5_movePawn_errors (board : Board) (pawnId : String) (t : Pos) :
    (movePawn board pawnId t = .error .pawnNotFound ↔ regFind board.pawns pawnId = none) ∧
    (∀ pawn, regFind board.pawns pawnId = some pawn →
      (movePawn board pawnId t = .error .illegalMove ↔
        t ∉ getPawnAllowedMoves pawn board)) := by
  constructor
  · constructor
    · intro h
      cases hfind : regFind board.pawns pawnId with
      | none => rfl
      | some pawn =>
        unfold movePawn at h
        rw [hfind] at h
        dsimp only at h
        split at h
        · simp at h
        · exact Except.noConfusion h
    · intro h
      unfold movePawn
      rw [h]
  · intro pawn hfind
    constructor
    · intro h hmem
      rw [movePawn_eq_ok board pawnId t pawn hfind hmem] at h
      exact Except.noConfusion h
    · intro hnot
      unfold movePawn
      rw [hfind]
      dsimp only
      have hfal : ((getPawnAllowedMoves pawn board).any
          fun position => position.row == t.row && position.col == t.col) = false := by
        cases hx : ((getPawnAllowedMoves pawn board).any
            fun position => position.row == t.row && position.col == t.col) with
        | true => exact absurd ((isLegal_iff_mem _ _).mp hx) hnot
        | false => rfl
      rw [hfal]
      rfl

/-- C5 witness: an absent id and an illegal target on the concrete board. -/
theorem C5_movePawn_errors_witness :
    (movePawn testBoard "Zz" { row := 2, col := 1 } = .error .pawnNotFound ↔
      regFind testBoard.pawns "Zz" = none) ∧
    (movePawn testBoard "Wa" { row := 0, col := 0 } = .error .illegalMove ↔
      ({ row := 0, col := 0 } : Pos) ∉ getPawnAllowedMoves pawnWa testBoard) :=
  ⟨(C5_movePawn_errors testBoard "Zz" { row := 2, col := 1 }).1,
   (C5_movePawn_errors testBoard "Wa" { row := 0, col := 0 }).2 pawnWa (by decide)⟩

/-- C6: every returned move is inside the board, and every returned diagonal
destination (a destination in a different column than the pawn) has its cell
occupied by a registered pawn of the opposite color. -/
theorem C6_moves_bounded_and_captures (pawn : Pawn) (board : Board) (m : Pos)
    (h : m ∈ getPawnAllowedMoves pawn board) :
    isValidPosition board m.row m.col = true ∧
    (m.col ≠ pawn.position.col →
      ∃ tid q, gridGet board.grid m.row m.col = some tid ∧
        regFind board.pawns tid = some q ∧ q.color ≠ pawn.color) := by
  obtain ⟨h1, -, -, h4⟩ := allowed_move_facts pawn board m h
  exact ⟨h1, h4⟩

/-- C6 witness: the diagonal capture (2,2) of Wa on the concrete board. -/
theorem C6_moves_bounded_and_captures_witness :
    isValidPosition testBoard 2 2 = true ∧
    ((2 : Int) ≠ pawnWa.position.col →
      ∃ tid q, gridGet testBoard.grid 2 2 = some tid ∧
        regFind testBoard.pawns tid = some q ∧ q.color ≠ pawnWa.color) :=
  C6_moves_bounded_and_captures pawnWa testBoard { row := 2, col := 2 } (by decide)

/-- C7: `placePawn` and `addPawn` fail with OutOfBounds exactly off the
board and with OccupiedSquare exactly on an occupied cell; on failure no
board is produced, so the caller's board is exactly as before (the embedding
returns only the error).  A successful `addPawn` with a fresh id adds
exactly one pawn, with `hasMoved = false`, leaving every other registry
entry unchanged. -/
theorem C7_failfast_and_addPawn :
    (∀ board pawn, isValidPosition board pawn.position.row pawn.position.col = false →
      placePawn board pawn = .error .outOfBounds) ∧
    (∀ board pawn, isValidPosition board pawn.position.row pawn.position.col = true →
      (gridGet board.grid pawn.position.row pawn.position.col).isSome = true →
      placePawn board pawn = .error .occupiedSquare) ∧
    (∀ board color row col freshId, isValidPosition board row col = false →
      addPawn board color row col freshId = .error .outOfBounds) ∧
    (∀ board color row col freshId, isValidPosition board row col = true →
      (gridGet board.grid row col).isSome = true →
      addPawn board color row col freshId = .error .occupiedSquare) ∧
    (∀ board color row col freshId b' p, regFind board.pawns freshId = none →
      addPawn board color row col freshId = .ok (b', p) →
      p.hasMoved = false ∧ p.id = freshId ∧
      b'.pawns.length = board.pawns.length + 1 ∧
      regFind b'.pawns freshId = some p ∧
      (∀ k, k ≠ freshId → regFind b'.pawns k = regFind board.pawns k)) := by
  refine ⟨?_, ?_, ?_, ?_, ?_⟩
  · intro board pawn h
    have h2 : ¬ (0 ≤ pawn.position.row ∧ pawn.position.row < (board.height : Int) ∧
        0 ≤ pawn.position.col ∧ pawn.position.col < (board.width : Int)) := by
      rw [← isValidPosition_iff board, h]
      simp
    unfold placePawn
    dsimp only
    rw [if_pos (by omega)]
  · intro board pawn hval hocc
    have h2 := (isValidPosition_iff board _ _).mp hval
    unfold placePawn
    dsimp only
    rw [if_neg (by omega), if_pos hocc]
  · intro board color row col freshId h
    unfold addPawn
    rw [h]
    rfl
  · intro board color row col freshId hval hocc
    unfold addPawn
    rw [hval]
    dsimp only
    rw [if_pos hocc]
    rfl
  · intro board color row col freshId b' p hfresh h
    obtain ⟨hp, hplace⟩ := addPawn_ok_inv board color row col freshId b' p h
    obtain ⟨-, -, hb'⟩ := placePawn_eq_ok board p b' hplace
    have hpid : p.id = freshId := by rw [hp]
    subst hb'
    refine ⟨by rw [hp], hpid, ?_, ?_, ?_⟩
    · dsimp only
      rw [hpid]
      unfold regSet
      rw [regDel_eq_self_of_fresh _ _ hfresh, List.length_cons]
    · dsimp only
      rw [hpid]
      rw [regFind_regSet_self]
    · intro k hk
      dsimp only
      rw [hpid]
      rw [regFind_regSet_ne _ _ _ _ hk]

/-- C7 witness: failing placements and a successful `addPawn` on the
concrete board. -/
theorem C7_failfast_and_addPawn_witness :
    placePawn testBoard
      { id := "X", color := .white, position := { row := 9, col := 0 }, hasMoved := false } =
      .error .outOfBounds ∧
    placePawn testBoard
      { id := "X", color := .white, position := { row := 1, col := 1 }, hasMoved := false } =
      .error .occupiedSquare ∧
    addPawn testBoard .black 9 9 "Bz" = .error .outOfBounds ∧
    addPawn testBoard .black 1 1 "Bz" = .error .occupiedSquare ∧
    (C2addRes.2.hasMoved = false ∧ C2addRes.2.id = "Bz" ∧
      C2addRes.1.pawns.length = testBoard.pawns.length + 1 ∧
      regFind C2addRes.1.pawns "Bz" = some C2addRes.2 ∧
      (∀ k, k ≠ "Bz" → regFind C2addRes.1.pawns k = regFind testBoard.pawns k)) :=
  ⟨C7_failfast_and_addPawn.1 testBoard _ (by decide),
   C7_failfast_and_addPawn.2.1 testBoard _ (by decide) (by decide),
   C7_failfast_and_addPawn.2.2.1 testBoard .black 9 9 "Bz" (by decide),
   C7_failfast_and_addPawn.2.2.2.1 testBoard .black 1 1 "Bz" (by decide) (by decide),
   C7_failfast_and_addPawn.2.2.2.2 testBoard .black 3 3 "Bz" C2addRes.1 C2addRes.2
     (by decide) (except_eq_ok_of_toOption _ _ (by decide))⟩

/-- Does the cell `(r, c)` hold a registered pawn of color `col`? -/
def cellHasColor (b : Board) (r c : Int) (col : Color) : Bool :=
  match gridGet b.grid r c with
  | none => false
  | some k =>
    match regFind b.pawns k with
    | none => false
    | some p => p.color == col

/-- C8: `createInitialBoard` yields an 8×8 board with exactly 32 pawns, 16
white and 16 black, all with `hasMoved = false`; every cell of rows 0 and 1
holds a white pawn, every cell of rows 6 and 7 a black pawn, all other cells
are empty; and the ids, in placement order (the registry list is built by
consing, hence reversed), are W1..W16 followed by B17..B32 — one counter
shared across both colors. -/
theorem C8_initial_board :
    (match createInitialBoard with
      | .error _ => false
      | .ok b =>
        b.width == 8 && b.height == 8 &&
        b.pawns.length == 32 &&
        ((b.pawns.filter (fun e => e.2.color == Color.white)).length == 16) &&
        ((b.pawns.filter (fun e => e.2.color == Color.black)).length == 16) &&
        b.pawns.all (fun e => e.2.hasMoved == false) &&
        ((List.range 8).all fun c =>
          ([0, 1] : List Int).all (fun r => cellHasColor b r (c : Int) Color.white) &&
          ([6, 7] : List Int).all (fun r => cellHasColor b r (c : Int) Color.black) &&
          ([2, 3, 4, 5] : List Int).all (fun r => gridGet b.grid r (c : Int) == none)) &&
        ((b.pawns.map fun e => e.1).reverse ==
          ((List.range 16).map fun n => "W" ++ toString (n + 1)) ++
            ((List.range 16).map fun n => "B" ++ toString (n + 17)))) = true := by
  decide

/-- C9: removing a present pawn clears its grid cell and deletes the
registry entry, leaving every other cell and entry untouched; removing an
absent id raises no error and returns the board unchanged. -/
theorem C9_removePawn_semantics (board : Board) (pawnId : String) :
    (∀ pawn, regFind board.pawns pawnId = some pawn →
      gridGet (removePawn board pawnId).grid pawn.position.row pawn.position.col = none ∧
      regFind (removePawn board pawnId).pawns pawnId = none ∧
      (∀ k, k ≠ pawnId → regFind (removePawn board pawnId).pawns k = regFind board.pawns k) ∧
      (∀ r c, ¬ (r = pawn.position.row ∧ c = pawn.position.col) →
        gridGet (removePawn board pawnId).grid r c = gridGet board.grid r c)) ∧
    (regFind board.pawns pawnId = none → removePawn board pawnId = board) := by
  constructor
  · intro pawn hfind
    unfold removePawn
    rw [hfind]
    dsimp only
    refine ⟨gridGet_gridSet_self_none _ _ _, regFind_regDel_self _ _,
      fun k hk => regFind_regDel_ne _ _ _ hk,
      fun r c hrc =>
        gridGet_gridSet_ne _ _ _ _ _ _ (fun hc => hrc ⟨hc.1.symm, hc.2.symm⟩)⟩
  · intro h
    unfold removePawn
    rw [h]

/-- C9 witness: removing the present "Bb" and the absent "Zz". -/
theorem C9_removePawn_semantics_witness :
    (gridGet (removePawn testBoard "Bb").grid pawnBb.position.row pawnBb.position.col = none ∧
      regFind (removePawn testBoard "Bb").pawns "Bb" = none ∧
      (∀ k, k ≠ "Bb" → regFind (removePawn testBoard "Bb").pawns k = regFind testBoard.pawns k) ∧
      (∀ r c, ¬ (r = pawnBb.position.row ∧ c = pawnBb.position.col) →
        gridGet (removePawn testBoard "Bb").grid r c = gridGet testBoard.grid r c)) ∧
    removePawn testBoard "Zz" = testBoard :=
  ⟨(C9_removePawn_semantics testBoard "Bb").1 pawnBb (by decide),
   (C9_removePawn_semantics testBoard "Zz").2 (by decide)⟩

/-- C10: a pawn whose forward row falls off the board — a white pawn on the
top row `height - 1`, or a black pawn on row 0 — has no allowed moves at
all: forward moves and both diagonal captures are guarded by the same
out-of-bounds forward row. -/
theorem C10_edge_row_no_moves (pawn : Pawn) (board : Board)
    (h : (pawn.color = Color.white ∧ pawn.position.row = (board.height : Int) - 1) ∨
         (pawn.color = Color.black ∧ pawn.position.row = 0)) :
    getPawnAllowedMoves pawn board = [] := by
  unfold getPawnAllowedMoves tryCapture
  dsimp only
  generalize hd : (if pawn.color = Color.white then (1 : Int) else -1) = d
  have hfr : (board.height : Int) ≤ pawn.position.row + d ∨ pawn.position.row + d < 0 := by
    rcases h with ⟨hc, hr⟩ | ⟨hc, hr⟩
    · rw [hc, if_pos rfl] at hd
      omega
    · rw [hc, if_neg (by decide)] at hd
      omega
  have hval : ∀ c : Int, isValidPosition board (pawn.position.row + d) c = false := by
    intro c
    cases hx : isValidPosition board (pawn.position.row + d) c with
    | false => rfl
    | true =>
      exfalso
      have h2 := (isValidPosition_iff _ _ _).mp hx
      omega
  rw [hval pawn.position.col, hval (pawn.position.col - 1), hval (pawn.position.col + 1)]
  simp

/-- C10 witness: a white pawn on the top row of the concrete 4×4 board. -/
theorem C10_edge_row_no_moves_witness :
    getPawnAllowedMoves
      { id := "We", color := Color.white, position := { row := 3, col := 2 },
        hasMoved := false } testBoard = [] :=
  C10_edge_row_no_moves _ testBoard (Or.inl ⟨rfl, by decide⟩)
